import Mathlib

/-!
Shallow embedding of the AIChallenge repository (a chat-UI glue system:
ticket creator, Confluence scraper, chatbot, Azure-DevOps error analyzer)
and proofs about the claims on its specification.

Python strings are modelled as Lean `String` (sequences of Unicode code
points, matching Python `str` indexing by code point); Python string
operations (`split`, `strip`, `lower`, `in`, `index`, slicing, the ASCII
character classes of the regexes used by the code) are defined below from
their documented semantics.  HTTP requests and LLM calls are modelled by
oracle parameters: the value such a call would return (or `Except.error`
for a raised exception) is passed in, and the function body is translated
from the source.
-/

namespace AIChallenge

/-- Whitespace characters of Python `str.strip()` and `\s` (ASCII range). -/
def isPySpace (c : Char) : Bool :=
  c = ' ' || c = '\t' || c = '\n' || c = '\r' || c = '\x0b' || c = '\x0c'

/-- Python `str.lower()` (ASCII case folding, which is all the code relies on). -/
def pyLower (s : String) : String :=
  String.mk (s.data.map Char.toLower)

/-- Strip `isPySpace` characters from both ends of a character list
(Python `str.strip()`). -/
def stripList (l : List Char) : List Char :=
  (((l.dropWhile isPySpace).reverse.dropWhile isPySpace).reverse)

/-- Python `str.strip()`. -/
def pyStrip (s : String) : String :=
  String.mk (stripList s.data)

/-- First index at which `pat` occurs in the list, scanning left to right
(Python `str.find` / `str.index`, by code-point offset). -/
def findSubAux (pat : List Char) : List Char → Nat → Option Nat
  | [], i => if pat.isPrefixOf ([] : List Char) then some i else none
  | c :: t, i => if pat.isPrefixOf (c :: t) then some i else findSubAux pat t (i + 1)

/-- Python `s.find(pat)` as an `Option` (`str.index` raises where this is `none`). -/
def pyFind (s pat : String) : Option Nat :=
  findSubAux pat.data s.data 0

/-- Python `pat in s` substring containment. -/
def pyContains (s pat : String) : Bool :=
  (pyFind s pat).isSome

/-- Python slice `s[i:j]` (code-point indices, clamped like Python). -/
def pySlice (s : String) (i j : Nat) : String :=
  String.mk ((s.data.take j).drop i)

/-- Python slice `s[i:]`. -/
def pySliceFrom (s : String) (i : Nat) : String :=
  String.mk (s.data.drop i)

/-- Python `s.split('\n')` on character lists: split at every newline,
keeping empty pieces. -/
def splitNL : List Char → List (List Char)
  | [] => [[]]
  | c :: t =>
    match splitNL t with
    | [] => [[]]
    | r :: rs => if c = '\n' then [] :: r :: rs else (c :: r) :: rs

/-- A word character of the code's regexes: `[A-Za-z0-9_]` (the character
classes written in the source are ASCII). -/
def isWordChar (c : Char) : Bool :=
  c.isAlpha || c.isDigit || c = '_'

/-- Maximal runs of word characters (`acc` holds the current run reversed).
These are the candidate matches of the `\b...\b` regexes of the source. -/
def wordRunsAux : List Char → List Char → List (List Char)
  | [], acc => if acc.isEmpty then [] else [acc.reverse]
  | c :: t, acc =>
    if isWordChar c then wordRunsAux t (c :: acc)
    else if acc.isEmpty then wordRunsAux t []
    else acc.reverse :: wordRunsAux t []

/-- Python `re.findall(r'\b[a-zA-Z_][a-zA-Z0-9_]*\b', s)`: the maximal word
runs that begin with a letter or underscore (a run starting with a digit
matches neither the leading class nor, lacking an inner boundary, a later
start). -/
def pyWordTokens (s : String) : List String :=
  ((wordRunsAux s.data []).filter
    (fun r => (r.headD ' ').isAlpha || (r.headD ' ') = '_')).map String.mk

/-- Python `re.findall(r'\b[A-Z][a-zA-Z0-9]*\b', s)`: maximal word runs that
start with an uppercase ASCII letter and contain no underscore (an
underscore inside the run blocks the trailing word boundary). -/
def pascalTokens (s : String) : List String :=
  ((wordRunsAux s.data []).filter
    (fun r => (r.headD ' ').isUpper && !(r.contains '_'))).map String.mk

/-- Python `s.endswith(suffix)`. -/
def pyEndsWith (s suffix : String) : Bool :=
  suffix.data.isSuffixOf s.data

/-- Two adjacent whitespace characters somewhere in the list. -/
def hasDoubleWs : List Char → Bool
  | a :: b :: t => (isPySpace a && isPySpace b) || hasDoubleWs (b :: t)
  | _ => false

/-- Stable insertion step of `pySort`: place `x` before the first element
it is `le`-before, keeping the original order among `le`-ties. -/
def insertStable {β : Type} (le : β → β → Bool) (x : β) : List β → List β
  | [] => [x]
  | y :: ys => if le x y then x :: y :: ys else y :: insertStable le x ys

/-- Python's `list.sort` is a stable sort; a stable sort by a total preorder
has a unique result, so this structural stable insertion sort computes
exactly what CPython's stable sort computes for the same comparison.
(Used with `le a b := b.key ≤ a.key` for `sort(key=..., reverse=True)`:
descending by key, ties in original order.) -/
def pySort {β : Type} (le : β → β → Bool) : List β → List β
  | [] => []
  | x :: xs => insertStable le x (pySort le xs)

end AIChallenge

namespace SyncConfluence

open AIChallenge

/-!
Embedding of `src/sync_confluence.py` (`WebScraper`).
-/

/-- One JSON response of the wiki search API: its `results` array (pages of
type `α`) and the optional `_links.next` link. -/
structure ConfResponse (α : Type) where
  results : List α
  next : Option String

/-- `WebScraper.get_confluence_pages`: collect the `results` of the initial
response, then follow the `next` link as long as one is present.  The
network is modelled by the chain of responses the server would return: the
head is the initial response, and each `next` fetch consumes the following
element.  The loop of the source stops exactly at the first response
without a `next` link; on a chain where every response carries one, this
total model consumes the whole chain (the source would keep requesting). -/
def get_confluence_pages {α : Type} : List (ConfResponse α) → List α
  | [] => []
  | r :: rest =>
    r.results ++ (match r.next with
      | none => []
      | some _ => get_confluence_pages rest)

/-- The characters replaced by `_` in `safe_filename`
(regex `[\\/*?:"<>|]`). -/
def bannedChars : List Char :=
  ['\\', '/', '*', '?', ':', '"', '<', '>', '|']

/-- `re.sub(r'[\\/*?:"<>|]', "_", name)`. -/
def subBanned (s : String) : String :=
  String.mk (s.data.map (fun c => if bannedChars.contains c then '_' else c))

/-- `re.sub(r"\s+", " ", name)`: collapse every whitespace run to a single
space.  The flag records that the previous character belonged to a run
whose space was already emitted. -/
def collapseWsAux : List Char → Bool → List Char
  | [], _ => []
  | c :: t, inRun =>
    if isPySpace c then
      (if inRun then collapseWsAux t true else ' ' :: collapseWsAux t true)
    else c :: collapseWsAux t false

/-- `WebScraper.safe_filename`.  `unicodedata.normalize("NFKD", ·)` is a
library call over the full Unicode tables; it is modelled as an arbitrary
string transformation `nfkd`, so every theorem below holds for every
possible normalizer.  The steps mirror the source: replace reserved
characters, normalize, replace again, collapse whitespace and strip, then
drop supplementary-plane characters. -/
def safe_filename (nfkd : String → String) (name : String) : String :=
  let n1 := subBanned name
  let n2 := nfkd n1
  let n3 := subBanned n2
  let n4 := pyStrip (String.mk (collapseWsAux n3.data false))
  String.mk (n4.data.filter (fun c => c.toNat < 0x10000))

end SyncConfluence

namespace ErrorAnalysisFeature

open AIChallenge

/-!
Embedding of `src/features/error_analysis.py` (`ErrorAnalysisFeature`).
-/

/-- `ErrorAnalysisFeature.validate_inputs`. -/
def validate_inputs (error_message repo_url : String) : Option String :=
  if pyStrip error_message = "" then
    some "Please provide an error message to analyze."
  else if pyStrip repo_url = "" then
    some "Please provide a repository URL."
  else if !(pyContains (pyLower repo_url) "dev.azure.com"
            || pyContains (pyLower repo_url) "visualstudio.com") then
    some "Currently only Azure DevOps repositories are supported."
  else
    none

/-- `ErrorAnalysisFeature.analyze_error_with_ai`, up to the point where the
repository analysis starts.  The generator first validates; on a validation
error it yields exactly one message and returns.  Everything after the
validation gate (the repository and AI analysis, which is network-bound) is
abstracted as the continuation `analysisOutputs`. -/
def analyze_error_with_ai (error_message repo_url : String) (days : Nat)
    (analysisOutputs : List String) : List String :=
  match validate_inputs error_message repo_url with
  | some e => ["❌ Validation Error: " ++ e]
  | none =>
    "🚀 Starting error analysis with recent changes focus...\n\n"
      :: ("🔍 Analyzing files changed in the past " ++ toString days ++ " days\n\n")
      :: "📂 Analyzing repository structure and extracting relevant files from recent commits...\n\n"
      :: analysisOutputs

end ErrorAnalysisFeature

namespace JIRACreator

open AIChallenge

/-!
Embedding of `src/agent/create_tickets.py` (`JIRACreator.create_ticket`).
-/

/-- One panel of the Atlassian Document Format body the source builds:
its `panelType` attribute and the text of its single paragraph. -/
structure Panel where
  panelType : String
  text : String
deriving DecidableEq, Repr

/-- `JIRACreator.create_ticket`, up to the HTTP post.  `Except.ok panels`
means the function reaches `requests.post` with an ADF description made of
exactly `panels`; `Except.error msg` means it returns the error string
`msg` without posting.  (The auth-header choice and the handling of the
HTTP response after the post only wrap the network call and are outside
this model.)  `description.index(...)` is Python `str.index`: the first
occurrence, raising — caught by the source and turned into the section
error — where `pyFind` is `none`. -/
def create_ticket (summary description issue_type project_key : String) :
    Except String (List Panel) :=
  if summary = "" || description = "" || issue_type = "" || project_key = "" then
    .error "❌ All fields are required."
  else
    match pyFind description "User Story", pyFind description "Acceptance Criteria",
        pyFind description "Scenarios" with
    | some first_index, some second_index, some third_index =>
      let user_story := pyStrip (pySlice description first_index second_index)
      let acceptance_criteria := pyStrip (pySlice description second_index third_index)
      let testing := pyStrip (pySliceFrom description third_index)
      if user_story = "" || acceptance_criteria = "" || testing = "" then
        .error "❌ Please ensure the description includes 'User Story', 'Acceptance Criteria', and 'Scenarios' sections."
      else
        .ok [⟨"info", user_story⟩, ⟨"success", acceptance_criteria⟩, ⟨"note", testing⟩]
    | _, _, _ =>
      .error "❌ Please ensure the description includes 'User Story', 'Acceptance Criteria', and 'Scenarios' sections."

end JIRACreator

namespace ErrorAnalyzer

open AIChallenge

/-!
Embedding of `src/agents/error_analyzer.py` (`ErrorAnalyzer`).
-/

/-- A record of `{'path': ..., 'name': ..., 'content': ...}` as the analyzer
passes file dictionaries around (the commit-metadata keys play no role in
the claims' functions and are omitted). -/
structure FileInfo where
  path : String
  name : String
  content : String
deriving DecidableEq, Repr

/-- An HTTP response of the Azure DevOps API as the fetchers consume it:
the status code and the already-parsed body value (`response.json()`
followed by `.get(...)`; a parse failure raises and is modelled by the
`Except.error` oracle case). -/
structure AzureResp (α : Type) where
  status : Nat
  value : α

/-- `requests.Response.raise_for_status` raises for every 4xx and 5xx code. -/
def httpErrorStatus (status : Nat) : Bool :=
  400 ≤ status && status < 600

/-- `ErrorAnalyzer.get_recent_commits`.  The oracle `resp` is what
`requests.get` produces: `Except.error` for a raised exception (connection
failure, JSON parse error, ...), `Except.ok` for a response carrying a
status and the parsed `value` array. -/
def get_recent_commits {α : Type} (project_repo : String)
    (resp : Except String (AzureResp (List α))) : List α :=
  if (project_repo.splitOn "/").length ≠ 2 then []
  else
    match resp with
    | .error _ => []
    | .ok r => if httpErrorStatus r.status then [] else r.value

/-- `ErrorAnalyzer.get_commit_changes`: same shape as `get_recent_commits`,
returning the parsed `changes` array. -/
def get_commit_changes {α : Type} (project_repo : String)
    (resp : Except String (AzureResp (List α))) : List α :=
  if (project_repo.splitOn "/").length ≠ 2 then []
  else
    match resp with
    | .error _ => []
    | .ok r => if httpErrorStatus r.status then [] else r.value

/-- The body of a file-content response: its `content-type` header and the
body text.  For a JSON body, `text` stands for the `content` field the
source extracts (the base64 branch wraps a library decode and is folded
into the oracle); for a raw body it is `response.text`. -/
structure AzureFileResp where
  status : Nat
  contentType : String
  text : String

/-- UTF-8 BOM stripping of the raw-text branch of `_get_azure_file_content`. -/
def stripBOM (content : String) : String :=
  if content.startsWith "\uFEFF" then pySliceFrom content 1
  else if content.startsWith "ï»¿" then pySliceFrom content 3
  else content

/-- `ErrorAnalyzer._get_azure_file_content` (and therefore
`get_file_content`, which only forwards to it): `none` exactly on the
error paths — bad `project/repo` format, raised exception, 404/403/401,
or any other error status `raise_for_status` throws on. -/
def get_azure_file_content (project_repo : String)
    (resp : Except String AzureFileResp) : Option String :=
  if (project_repo.splitOn "/").length ≠ 2 then none
  else
    match resp with
    | .error _ => none
    | .ok r =>
      if r.status = 404 then none
      else if r.status = 403 then none
      else if r.status = 401 then none
      else if httpErrorStatus r.status then none
      else if pyContains (pyLower r.contentType) "application/json" then some r.text
      else some (stripBOM r.text)

/-- Code patterns of `_smart_truncate_content` scored `+3`. -/
def codePatterns : List String :=
  ["public", "private", "class", "method", "function", "sub ", "dim ", "if ", "try",
   "catch", "throw"]

/-- Configuration patterns of `_smart_truncate_content` scored `+2`. -/
def configPatterns : List String :=
  ["config", "connection", "setting", "import", "using", "namespace"]

/-- The per-line relevance score of `_smart_truncate_content`: `+10` for each
error keyword the lowercased line contains, `+3` for a code pattern, `+2`
for a configuration pattern. -/
def scoreLine (error_keywords : List String) (line : String) : Nat :=
  let line_lower := pyLower line
  10 * (error_keywords.filter (fun k => pyContains line_lower k)).length
    + (if codePatterns.any (fun p => pyContains line_lower p) then 3 else 0)
    + (if configPatterns.any (fun p => pyContains line_lower p) then 2 else 0)

/-- The selection loop at the end of `_smart_truncate_content`: walk the
score-sorted lines; for a line with positive score and index at least 20
that fits the remaining budget, emit a `... (line N) ...` marker and the
line, charge `len(line) + 1`, and stop once the remainder drops under 100.
The budget is an `Int` because the caller can pass a negative allowance. -/
def addRelevantLines : List (Nat × String × Nat) → Int → List String
  | [], _ => []
  | (line_num, line, score) :: rest, remaining_chars =>
    if score > 0 && decide (line_num ≥ 20) then
      if (line.length : Int) + 1 ≤ remaining_chars then
        let remaining2 := remaining_chars - ((line.length : Int) + 1)
        if remaining2 < 100 then
          ["... (line " ++ toString (line_num + 1) ++ ") ...", line]
        else
          ("... (line " ++ toString (line_num + 1) ++ ") ...")
            :: line :: addRelevantLines rest remaining2
      else addRelevantLines rest remaining_chars
    else addRelevantLines rest remaining_chars

/-- `ErrorAnalyzer._smart_truncate_content`: content within the budget is
returned as is; otherwise the first `min(20, #lines)` lines are kept and
the highest-scoring later lines are appended (stable descending sort via
`pySort`, as Python's `sort(key=..., reverse=True)`), joined with newlines. -/
def smart_truncate_content (content : String) (max_chars : Int)
    (error_message : String) : String :=
  if (content.length : Int) ≤ max_chars then content
  else
    let lines := (splitNL content.data).map String.mk
    let error_keywords := (pyWordTokens (pyLower error_message)).filter
      (fun k => k.length > 3)
    let scored_lines := lines.enum.map (fun p => (p.1, p.2, scoreLine error_keywords p.2))
    let beginning_lines := lines.take (min 20 lines.length)
    let sorted := pySort (fun a b => decide (b.2.2 ≤ a.2.2)) scored_lines
    let used_chars := (String.intercalate "\n" beginning_lines).length
    String.intercalate "\n"
      (beginning_lines ++ addRelevantLines sorted ((max_chars : Int) - used_chars))

/-- Character budget of the whole analysis context
(`MAX_TOKENS = 100000`, `MAX_CHARS = MAX_TOKENS * 4`). -/
def MAX_TOKENS : Nat := 100000

/-- `MAX_CHARS` of `prepare_analysis_context`. -/
def MAX_CHARS : Nat := MAX_TOKENS * 4

/-- The first part of the context built by `prepare_analysis_context`:
the error message block before any file section. -/
def contextHeader (error_message : String) : String :=
  "ERROR MESSAGE:\n" ++ error_message ++ "\n\nRELEVANT CODE FILES:\n"

/-- The 20-space indentation the source's triple-quoted f-strings carry on
every inner line. -/
def ind20 : String := "                    "

/-- A single-quote character as a string (for the Python list repr). -/
def singleQuote : String := String.mk [Char.ofNat 39]

/-- Python `str(list_of_paths)` as interpolated into the omitted-files note
(each path in single quotes; the escaping Python repr would apply to a
quote inside a path is not reproduced). -/
def pyListRepr (paths : List String) : String :=
  "[" ++ String.intercalate ", "
    (paths.map (fun p => singleQuote ++ p ++ singleQuote)) ++ "]"

/-- Per-file character allowance of the packing loop:
`min(8000, (MAX_CHARS - current_length) // max(1, total - files_included))`,
an `Int` because the numerator can be negative (Python floor division). -/
def max_file_chars (current_length total files_included : Nat) : Int :=
  min 8000 (Int.fdiv ((MAX_CHARS : Int) - (current_length : Int))
    (max 1 ((total : Int) - (files_included : Int))))

/-- The f-string section for a file whose content fits its allowance. -/
def plainFileSection (file_path file_content : String) : String :=
  "\n" ++ ind20 ++ "--- FILE: " ++ file_path ++ " ---\n" ++ ind20 ++ file_content
    ++ "\n\n" ++ ind20

/-- The f-string section for a file whose content was truncated. -/
def truncFileSection (file_path : String) (origLen : Nat)
    (truncated_content : String) : String :=
  "\n" ++ ind20 ++ "--- FILE: " ++ file_path ++ " (TRUNCATED - " ++ toString origLen
    ++ " chars total) ---\n" ++ ind20 ++ truncated_content ++ "\n" ++ ind20
    ++ "[... content truncated for token limit ...]\n\n" ++ ind20

/-- The f-string note appended when the loop breaks: how many files were
left out and their paths (`relevant_files[files_included:]`). -/
def omittedNote (total files_included : Nat) (remaining : List FileInfo) : String :=
  "\n" ++ ind20 ++ "--- ADDITIONAL FILES OMITTED DUE TO TOKEN LIMIT ---\n" ++ ind20
    ++ toString (total - files_included)
    ++ " more files were analyzed but omitted from context to stay within token limits.\n"
    ++ ind20 ++ "Files omitted: " ++ pyListRepr (remaining.map FileInfo.path)
    ++ "\n\n" ++ ind20

/-- The section `prepare_analysis_context` builds for one file at the given
loop state: truncated when the content exceeds its allowance. -/
def fileSection (error_message : String) (current_length total files_included : Nat)
    (f : FileInfo) : String :=
  let mfc := max_file_chars current_length total files_included
  if (f.content.length : Int) > mfc then
    truncFileSection f.path f.content.length
      (smart_truncate_content f.content mfc error_message)
  else
    plainFileSection f.path f.content

/-- The packing loop of `prepare_analysis_context`: append each file's
section while it keeps `current_length` within `MAX_CHARS`; at the first
section that would exceed the budget, append the omitted-files note and
stop. -/
def packFiles (error_message : String) (total : Nat) :
    String → Nat → Nat → List FileInfo → String
  | context, _, _, [] => context
  | context, current_length, files_included, f :: rest =>
    let s := fileSection error_message current_length total files_included f
    if current_length + s.length > MAX_CHARS then
      context ++ omittedNote total files_included (f :: rest)
    else
      packFiles error_message total (context ++ s) (current_length + s.length)
        (files_included + 1) rest

/-- `ErrorAnalyzer.prepare_analysis_context`. -/
def prepare_analysis_context (error_message : String)
    (relevant_files : List FileInfo) : String :=
  let context := contextHeader error_message
  packFiles error_message relevant_files.length context context.length 0 relevant_files

/-- Ghost of `packFiles` counting how many files the loop packs before it
stops (the state is mirrored through lengths only). -/
def packedCount (error_message : String) (total : Nat) :
    Nat → Nat → List FileInfo → Nat
  | _, _, [] => 0
  | current_length, files_included, f :: rest =>
    let s := fileSection error_message current_length total files_included f
    if current_length + s.length > MAX_CHARS then 0
    else packedCount error_message total (current_length + s.length)
      (files_included + 1) rest + 1

/-- Ghost of `packFiles` packing exactly the first `k` files with no budget
check (used to state what the greedy loop produces). -/
def packExact (error_message : String) (total : Nat) :
    String → Nat → Nat → Nat → List FileInfo → String
  | context, _, _, _, [] => context
  | context, _, _, 0, _ :: _ => context
  | context, current_length, files_included, k + 1, f :: rest =>
    let s := fileSection error_message current_length total files_included f
    packExact error_message total (context ++ s) (current_length + s.length)
      (files_included + 1) k rest

/-- How many files `prepare_analysis_context` packs. -/
def packedCountTop (error_message : String) (files : List FileInfo) : Nat :=
  packedCount error_message files.length (contextHeader error_message).length 0 files

/-- The context after packing exactly the first `k` files. -/
def contextPrefix (error_message : String) (files : List FileInfo) (k : Nat) : String :=
  packExact error_message files.length (contextHeader error_message)
    (contextHeader error_message).length 0 k files

/-- The budget check of the packing loop: at state `current_length` with
`files_included` files packed out of `total`, the section for `f` fits. -/
def sectionFits (error_message : String) (total current_length files_included : Nat)
    (f : FileInfo) : Prop :=
  current_length + (fileSection error_message current_length total files_included f).length
    ≤ MAX_CHARS

/-- The stop words filtered out of the error keywords by
`_smart_file_selection_fallback`. -/
def common_words : List String :=
  ["the", "and", "or", "but", "in", "on", "at", "to", "for", "of", "with", "by",
   "from", "up", "about", "into", "through", "during", "before", "after", "above",
   "below", "between", "among", "against", "within", "without", "throughout",
   "error", "exception", "null", "reference"]

/-- The score `_smart_file_selection_fallback` gives one file: keyword
matches in name (`+20` each) or path (`+10`), PascalCase class-name matches
(`+15`/`+8`), error-type bonuses, and `+2` for `.cs`/`.vb` when already
relevant. -/
def scoreFile (error_message : String) (f : FileInfo) : Nat :=
  let error_lower := pyLower error_message
  let error_keywords := (pyWordTokens error_lower).filter
    (fun k => k.length > 3 && !(common_words.contains k))
  let file_path := pyLower f.path
  let file_name := pyLower f.name
  let kwScore := (error_keywords.map (fun k =>
      if pyContains file_name k then 20
      else if pyContains file_path k then 10 else 0)).sum
  let class_patterns := pascalTokens error_message
  let classScore := (class_patterns.map (fun cn =>
      if cn.length > 3 then
        let cl := pyLower cn
        if pyContains file_name cl then 15
        else if pyContains file_path cl then 8 else 0
      else 0)).sum
  let sqlScore :=
    if (pyContains error_lower "sqlexception" || pyContains error_lower "database")
        && (["data", "repository", "dbcontext", "sql"].any
          (fun p => pyContains file_path p)) then 12 else 0
  let configScore :=
    if (pyContains error_lower "configuration" || pyContains error_lower "config")
        && (pyEndsWith file_name ".config" || pyEndsWith file_name ".json"
          || pyEndsWith file_name ".xml") then 15 else 0
  let startupScore :=
    if (pyContains error_lower "startup" || pyContains error_lower "program")
        && (["startup", "program", "main"].any
          (fun p => pyContains file_name p)) then 15 else 0
  let base := kwScore + classScore + sqlScore + configScore + startupScore
  if base > 0 && (pyEndsWith file_name ".cs" || pyEndsWith file_name ".vb") then
    base + 2
  else base

/-- `ErrorAnalyzer._smart_file_selection_fallback`: keep the files with a
positive score in input order, sort them by score descending (Python's
stable sort with `reverse=True`), and return the first `max_files` paths. -/
def smart_file_selection_fallback (all_files : List FileInfo)
    (error_message : String) (max_files : Nat) : List String :=
  let scored_files := all_files.filterMap (fun f =>
    let score := scoreFile error_message f
    if score > 0 then some (f.path, score) else none)
  let sorted := pySort (fun a b => decide (b.2 ≤ a.2)) scored_files
  (sorted.take max_files).map Prod.fst

/-- `ErrorAnalyzer.ai_select_relevant_files`.  The chat-completion call is
an oracle: `some paths` is a JSON array of strings successfully extracted
from a 200 response; `none` covers every failure the source falls through
on (missing credentials, a raised request, a non-200 status, a response
with no parsable JSON array).  A parsed answer is filtered against the
available paths; when nothing valid remains — or on any failure — the
keyword fallback runs on the same arguments. -/
def ai_select_relevant_files (aiResponse : Option (List String))
    (all_files : List FileInfo) (error_message : String) (max_files : Nat) :
    List String :=
  if all_files.isEmpty then []
  else
    match aiResponse with
    | some selected_paths =>
      let available_paths := all_files.map FileInfo.path
      let valid_paths := selected_paths.filter (fun p => available_paths.contains p)
      if !valid_paths.isEmpty then valid_paths.take max_files
      else smart_file_selection_fallback all_files error_message max_files
    | none => smart_file_selection_fallback all_files error_message max_files

end ErrorAnalyzer

namespace AIChallenge

/-! ### Helper lemmas on the Python string primitives -/

theorem insertStable_perm {β : Type} (le : β → β → Bool) (x : β) (l : List β) :
    (insertStable le x l).Perm (x :: l) := by
  induction l with
  | nil => exact List.Perm.refl _
  | cons y ys ih =>
    unfold insertStable
    by_cases h : le x y
    · rw [if_pos h]
    · rw [if_neg h]
      exact (ih.cons y).trans (List.Perm.swap x y ys)

theorem pySort_perm {β : Type} (le : β → β → Bool) (l : List β) :
    (pySort le l).Perm l := by
  induction l with
  | nil => exact List.Perm.refl _
  | cons x xs ih =>
    exact (insertStable_perm le x (pySort le xs)).trans (ih.cons x)

theorem forall_dropWhile_iff {p : Char → Bool} {l : List Char} :
    (∀ x ∈ l.dropWhile p, p x = true) ↔ ∀ x ∈ l, p x = true := by
  constructor
  · intro h x hx
    have hx2 : x ∈ l.takeWhile p ++ l.dropWhile p := by
      rw [List.takeWhile_append_dropWhile]
      exact hx
    rcases List.mem_append.mp hx2 with h1 | h2
    · exact List.mem_takeWhile_imp h1
    · exact h x h2
  · intro h x hx
    exact h x ((List.dropWhile_sublist p).mem hx)

theorem stripList_eq_nil_iff {l : List Char} :
    stripList l = [] ↔ ∀ c ∈ l, isPySpace c = true := by
  unfold stripList
  rw [List.reverse_eq_nil_iff, List.dropWhile_eq_nil_iff]
  constructor
  · intro h
    rw [← forall_dropWhile_iff]
    intro x hx
    exact h x (List.mem_reverse.mpr hx)
  · intro h x hx
    exact h x ((List.dropWhile_sublist isPySpace).mem (List.mem_reverse.mp hx))

theorem pyStrip_eq_empty_iff (s : String) :
    pyStrip s = "" ↔ ∀ c ∈ s.data, isPySpace c = true := by
  unfold pyStrip
  rw [show ("" : String) = String.mk [] from rfl]
  constructor
  · intro h
    exact stripList_eq_nil_iff.mp (congrArg String.data h)
  · intro h
    exact congrArg String.mk (stripList_eq_nil_iff.mpr h)

theorem any_not_space_iff (l : List Char) :
    l.any (fun c => !(isPySpace c)) = true ↔ ¬ (∀ c ∈ l, isPySpace c = true) := by
  rw [List.any_eq_true]
  constructor
  · rintro ⟨c, hc, hne⟩ hall
    rw [hall c hc] at hne
    simp at hne
  · intro h
    by_contra hno
    apply h
    intro c hc
    by_contra hcs
    exact hno ⟨c, hc, by simp [hcs]⟩

theorem mem_of_mem_stripList {c : Char} {l : List Char} (h : c ∈ stripList l) :
    c ∈ l := by
  unfold stripList at h
  have h1 := List.mem_reverse.mp h
  have h2 := (List.dropWhile_sublist isPySpace).mem h1
  have h3 := List.mem_reverse.mp h2
  exact (List.dropWhile_sublist isPySpace).mem h3

end AIChallenge

namespace SyncConfluence

open AIChallenge

/-! ### Helper lemmas for `safe_filename` and `get_confluence_pages` -/

theorem mem_subBanned {c : Char} {s : String} (h : c ∈ (subBanned s).data) :
    c ∉ bannedChars := by
  unfold subBanned at h
  rcases List.mem_map.mp h with ⟨a, _, ha⟩
  by_cases hb : bannedChars.contains a
  · rw [if_pos hb] at ha
    rw [← ha]
    decide
  · rw [if_neg hb] at ha
    rw [← ha]
    intro hmem
    exact hb (List.elem_iff.mpr hmem)

theorem mem_collapseWsAux {c : Char} :
    ∀ {l : List Char} {b : Bool}, c ∈ collapseWsAux l b → c = ' ' ∨ c ∈ l := by
  intro l
  induction l with
  | nil => intro b h; simp [collapseWsAux] at h
  | cons d t ih =>
    intro b h
    unfold collapseWsAux at h
    by_cases hd : isPySpace d
    · rw [if_pos hd] at h
      by_cases hb : b
      · subst hb
        simp only [if_pos] at h
        rcases ih h with h1 | h2
        · exact Or.inl h1
        · exact Or.inr (List.mem_cons_of_mem d h2)
      · simp only [hb, if_neg, Bool.false_eq_true, not_false_iff, if_false] at h
        rcases List.mem_cons.mp h with h1 | h2
        · exact Or.inl h1
        · rcases ih h2 with h3 | h4
          · exact Or.inl h3
          · exact Or.inr (List.mem_cons_of_mem d h4)
    · rw [if_neg hd] at h
      rcases List.mem_cons.mp h with h1 | h2
      · exact Or.inr (h1 ▸ List.mem_cons_self d t)
      · rcases ih h2 with h3 | h4
        · exact Or.inl h3
        · exact Or.inr (List.mem_cons_of_mem d h4)

theorem head_collapseWsAux_true {d : Char} :
    ∀ {l : List Char}, (collapseWsAux l true).head? = some d → isPySpace d = false := by
  intro l
  induction l with
  | nil => intro h; simp [collapseWsAux] at h
  | cons c t ih =>
    intro h
    unfold collapseWsAux at h
    by_cases hc : isPySpace c
    · rw [if_pos hc] at h
      simp only [if_pos] at h
      exact ih h
    · rw [if_neg hc] at h
      simp only [List.head?_cons, Option.some.injEq] at h
      rw [← h]
      exact Bool.eq_false_iff.mpr hc

theorem hasDoubleWs_collapseWsAux :
    ∀ (l : List Char) (b : Bool), hasDoubleWs (collapseWsAux l b) = false := by
  intro l
  induction l with
  | nil => intro b; simp [collapseWsAux, hasDoubleWs]
  | cons c t ih =>
    intro b
    unfold collapseWsAux
    by_cases hc : isPySpace c
    · rw [if_pos hc]
      by_cases hb : b
      · subst hb
        simp only [if_pos]
        exact ih true
      · simp only [hb, Bool.false_eq_true, not_false_iff, if_neg, if_false]
        cases hout : collapseWsAux t true with
        | nil => simp [hasDoubleWs]
        | cons d rest =>
          have hd : isPySpace d = false := by
            apply head_collapseWsAux_true
            rw [hout]
            rfl
          have hrest : hasDoubleWs (d :: rest) = false := by
            rw [← hout]
            exact ih true
          simp [hasDoubleWs, hd, hrest]
    · rw [if_neg hc]
      cases hout : collapseWsAux t false with
      | nil => simp [hasDoubleWs]
      | cons d rest =>
        have hrest : hasDoubleWs (d :: rest) = false := by
          rw [← hout]
          exact ih false
        have hc2 : isPySpace c = false := Bool.eq_false_iff.mpr hc
        simp [hasDoubleWs, hc2, hrest]

theorem hasDoubleWs_of_suffix {l t : List Char} (h : t.IsSuffix l)
    (hl : hasDoubleWs l = false) : hasDoubleWs t = false := by
  rcases h with ⟨u, rfl⟩
  induction u with
  | nil => exact hl
  | cons c u2 ih =>
    apply ih
    cases hcat : u2 ++ t with
    | nil => simp [hcat, hasDoubleWs]
    | cons d rest =>
      rw [List.cons_append, hcat] at hl
      unfold hasDoubleWs at hl
      exact (Bool.or_eq_false_iff.mp hl).2

theorem hasDoubleWs_of_prefix {l t : List Char} (h : t.IsPrefix l)
    (hl : hasDoubleWs l = false) : hasDoubleWs t = false := by
  rcases h with ⟨u, rfl⟩
  induction t with
  | nil => simp [hasDoubleWs]
  | cons c t2 ih =>
    cases t2 with
    | nil => simp [hasDoubleWs]
    | cons d rest =>
      rw [List.cons_append, List.cons_append] at hl
      unfold hasDoubleWs at hl
      unfold hasDoubleWs
      rcases Bool.or_eq_false_iff.mp hl with ⟨h1, h2⟩
      rw [h1]
      have h3 : hasDoubleWs (d :: rest) = false := ih h2
      rw [h3]
      rfl

theorem head_dropWhile_not {p : Char → Bool} :
    ∀ {l : List Char} {c : Char}, (l.dropWhile p).head? = some c → p c = false := by
  intro l
  induction l with
  | nil => intro c h; simp [List.dropWhile] at h
  | cons d t ih =>
    intro c h
    rw [List.dropWhile_cons] at h
    by_cases hd : p d
    · rw [if_pos hd] at h
      exact ih h
    · rw [if_neg hd] at h
      simp only [List.head?_cons, Option.some.injEq] at h
      rw [← h]
      exact Bool.eq_false_iff.mpr hd

theorem dropWhile_isSuffix (p : Char → Bool) (l : List Char) :
    (l.dropWhile p).IsSuffix l :=
  ⟨l.takeWhile p, List.takeWhile_append_dropWhile p l⟩

theorem stripList_append_eq_dropWhile (l : List Char) :
    stripList l ++ ((l.dropWhile isPySpace).reverse.takeWhile isPySpace).reverse =
      l.dropWhile isPySpace := by
  unfold stripList
  rw [← List.reverse_append, List.takeWhile_append_dropWhile, List.reverse_reverse]

theorem hasDoubleWs_stripList {l : List Char} (h : hasDoubleWs l = false) :
    hasDoubleWs (stripList l) = false := by
  have h1 : hasDoubleWs (l.dropWhile isPySpace) = false :=
    hasDoubleWs_of_suffix (dropWhile_isSuffix isPySpace l) h
  exact hasDoubleWs_of_prefix ⟨_, stripList_append_eq_dropWhile l⟩ h1

theorem getLast?_stripList_not_space {l : List Char} {c : Char}
    (h : (stripList l).getLast? = some c) : isPySpace c = false := by
  unfold stripList at h
  rw [List.getLast?_reverse] at h
  exact head_dropWhile_not h

theorem head?_stripList_not_space {l : List Char} {c : Char}
    (h : (stripList l).head? = some c) : isPySpace c = false := by
  have hm : (l.dropWhile isPySpace).head? = some c := by
    rw [← stripList_append_eq_dropWhile l, List.head?_append, h]
    rfl
  exact head_dropWhile_not hm

theorem mem_subBanned_bound {c : Char} {s : String} (h : c ∈ (subBanned s).data) :
    c = '_' ∨ c ∈ s.data := by
  unfold subBanned at h
  rcases List.mem_map.mp h with ⟨a, ha, hfa⟩
  by_cases hb : bannedChars.contains a
  · rw [if_pos hb] at hfa
    exact Or.inl hfa.symm
  · rw [if_neg hb] at hfa
    exact Or.inr (hfa ▸ ha)

/-! ### Claim theorems about `sync_confluence.py` -/

/-- C7: `get_confluence_pages` returns the concatenation, in request order,
of the `results` arrays of every response page, follows each `_links.next`
link, and stops exactly at the first response without a next link (on a
chain where every response carries a next link the whole chain is
consumed — the source would keep requesting). -/
theorem get_confluence_pages_pagination {α : Type} (chain : List (ConfResponse α)) :
    (∀ k, k < chain.length → (chain.getD k ⟨[], none⟩).next = none →
      (∀ i, i < k → (chain.getD i ⟨[], none⟩).next ≠ none) →
      get_confluence_pages chain =
        ((chain.take (k + 1)).map ConfResponse.results).flatten) ∧
    ((∀ i, i < chain.length → (chain.getD i ⟨[], none⟩).next ≠ none) →
      get_confluence_pages chain = (chain.map ConfResponse.results).flatten) := by
  induction chain with
  | nil =>
    constructor
    · intro k hk
      exact absurd hk (Nat.not_lt_zero k)
    · intro _
      rfl
  | cons r rest ih =>
    constructor
    · intro k hk hnone hbefore
      cases k with
      | zero =>
        simp only [List.getD_cons_zero] at hnone
        unfold get_confluence_pages
        rw [hnone]
        simp
      | succ k2 =>
        have h0 : r.next ≠ none := by
          have := hbefore 0 (Nat.succ_pos k2)
          simpa using this
        cases hr : r.next with
        | none => exact absurd hr h0
        | some s =>
          unfold get_confluence_pages
          rw [hr]
          have hk2 : k2 < rest.length := by simpa using hk
          have hnone2 : (rest.getD k2 ⟨[], none⟩).next = none := by
            simpa using hnone
          have hbefore2 : ∀ i, i < k2 → (rest.getD i ⟨[], none⟩).next ≠ none := by
            intro i hi
            have := hbefore (i + 1) (by omega)
            simpa using this
          rw [ih.1 k2 hk2 hnone2 hbefore2]
          simp
    · intro hall
      have h0 : r.next ≠ none := by
        have := hall 0 (by simp)
        simpa using this
      cases hr : r.next with
      | none => exact absurd hr h0
      | some s =>
        unfold get_confluence_pages
        rw [hr]
        have hall2 : ∀ i, i < rest.length → (rest.getD i ⟨[], none⟩).next ≠ none := by
          intro i hi
          have := hall (i + 1) (by simpa using Nat.succ_lt_succ hi)
          simpa using this
        rw [ih.2 hall2]
        simp

/-- C10 counterexample: `safe_filename` strips and collapses whitespace
before it deletes supplementary-plane characters, so deleting an emoji can
leave a double space (`"a 😀 b"`) or leading whitespace (`"😀 a"`): the
claimed whitespace guarantees fail (here with the identity normalizer). -/
theorem safe_filename_ws_counterexample :
    safe_filename (fun s => s) "a 😀 b" = "a  b" ∧
    hasDoubleWs (safe_filename (fun s => s) "a 😀 b").data = true ∧
    safe_filename (fun s => s) "😀 a" = " a" := by
  refine ⟨by decide, by decide, by decide⟩

/-- C10 (amended): for every normalizer and every input, the result of
`safe_filename` contains no reserved character and no supplementary-plane
character; the whitespace guarantees (no leading or trailing whitespace, no
run of two or more whitespace characters) hold only when the normalized
string contains no supplementary-plane character, because those characters
are deleted after whitespace normalization. -/
theorem safe_filename_amended (nfkd : String → String) (name : String) :
    (∀ c ∈ (safe_filename nfkd name).data, c ∉ bannedChars) ∧
    (∀ c ∈ (safe_filename nfkd name).data, c.toNat < 0x10000) ∧
    ((∀ c ∈ (nfkd (subBanned name)).data, c.toNat < 0x10000) →
      hasDoubleWs (safe_filename nfkd name).data = false ∧
      (∀ c, (safe_filename nfkd name).data.head? = some c → isPySpace c = false) ∧
      (∀ c, (safe_filename nfkd name).data.getLast? = some c → isPySpace c = false)) := by
  have hdata : (safe_filename nfkd name).data =
      (stripList (collapseWsAux (subBanned (nfkd (subBanned name))).data false)).filter
        (fun c => decide (c.toNat < 0x10000)) := rfl
  refine ⟨?_, ?_, ?_⟩
  · intro c hc
    rw [hdata] at hc
    have hs := List.mem_of_mem_filter hc
    have hl := mem_of_mem_stripList hs
    rcases mem_collapseWsAux hl with h1 | h2
    · rw [h1]
      decide
    · exact mem_subBanned h2
  · intro c hc
    rw [hdata] at hc
    have := List.of_mem_filter hc
    exact of_decide_eq_true this
  · intro H
    have hall : ∀ c ∈ stripList
        (collapseWsAux (subBanned (nfkd (subBanned name))).data false),
        decide (c.toNat < 0x10000) = true := by
      intro c hc
      apply decide_eq_true
      have hl := mem_of_mem_stripList hc
      rcases mem_collapseWsAux hl with h1 | h2
      · rw [h1]
        decide
      · rcases mem_subBanned_bound h2 with h3 | h4
        · rw [h3]
          decide
        · exact H c h4
    have hdata2 : (safe_filename nfkd name).data =
        stripList (collapseWsAux (subBanned (nfkd (subBanned name))).data false) := by
      rw [hdata]
      exact List.filter_eq_self.mpr hall
    refine ⟨?_, ?_, ?_⟩
    · rw [hdata2]
      exact hasDoubleWs_stripList (hasDoubleWs_collapseWsAux _ false)
    · intro c hc
      rw [hdata2] at hc
      exact head?_stripList_not_space hc
    · intro c hc
      rw [hdata2] at hc
      exact getLast?_stripList_not_space hc

end SyncConfluence

namespace ErrorAnalysisFeature

open AIChallenge

/-! ### Claim theorems about `features/error_analysis.py` -/

/-- C9: `validate_inputs` accepts (returns `none`) exactly when the error
message has a non-whitespace character, the repository URL has a
non-whitespace character, and the lowercased URL contains `dev.azure.com`
or `visualstudio.com`; on every rejection `analyze_error_with_ai` yields
exactly the validation-error message and performs no repository analysis
(the continuation is never reached). -/
theorem validate_inputs_iff (error_message repo_url : String) :
    (validate_inputs error_message repo_url = none ↔
      (error_message.data.any (fun c => !(isPySpace c)) = true ∧
       repo_url.data.any (fun c => !(isPySpace c)) = true ∧
       (pyContains (pyLower repo_url) "dev.azure.com" = true ∨
        pyContains (pyLower repo_url) "visualstudio.com" = true))) ∧
    (∀ e, validate_inputs error_message repo_url = some e →
      ∀ days rest, analyze_error_with_ai error_message repo_url days rest =
        ["❌ Validation Error: " ++ e]) := by
  constructor
  · have hm : error_message.data.any (fun c => !(isPySpace c)) = true ↔
        ¬ (pyStrip error_message = "") := by
      rw [any_not_space_iff, pyStrip_eq_empty_iff]
    have hr : repo_url.data.any (fun c => !(isPySpace c)) = true ↔
        ¬ (pyStrip repo_url = "") := by
      rw [any_not_space_iff, pyStrip_eq_empty_iff]
    unfold validate_inputs
    split_ifs with h1 h2 h3
    · simp [hm, h1]
    · simp [hm, h1, hr, h2]
    · rw [Bool.not_eq_true'] at h3
      rcases Bool.or_eq_false_iff.mp h3 with ⟨h4, h5⟩
      simp [hm, h1, hr, h2, h4, h5]
    · rw [Bool.not_eq_true', Bool.or_eq_false_iff] at h3
      have h6 : pyContains (pyLower repo_url) "dev.azure.com" = true ∨
          pyContains (pyLower repo_url) "visualstudio.com" = true := by
        by_contra hno
        push_neg at hno
        exact h3 ⟨Bool.not_eq_true _ ▸ Bool.eq_false_iff.mpr hno.1,
          Bool.eq_false_iff.mpr hno.2⟩
      simp [hm, h1, hr, h2, h6]
  · intro e he days rest
    unfold analyze_error_with_ai
    rw [he]

end ErrorAnalysisFeature

namespace ErrorAnalyzer

open AIChallenge

/-! ### Claim theorems about `agents/error_analyzer.py` -/

/-- C8: every repository fetch turns HTTP failure into a default value:
a raised request (`Except.error`) and every error status
(`raise_for_status` on 4xx/5xx, which covers 401, 403 and 404) give the
empty list for `get_recent_commits` and `get_commit_changes` and `none`
for `_get_azure_file_content`; in this total model no exception reaches
the caller. -/
theorem fetch_error_returns_default (project_repo : String) :
    (∀ (A : Type) (e : String),
      @get_recent_commits A project_repo (Except.error e) = [] ∧
      @get_commit_changes A project_repo (Except.error e) = [] ∧
      get_azure_file_content project_repo (Except.error e) = none) ∧
    (∀ (A : Type) (r : AzureResp (List A)), httpErrorStatus r.status = true →
      @get_recent_commits A project_repo (Except.ok r) = [] ∧
      @get_commit_changes A project_repo (Except.ok r) = []) ∧
    (∀ r : AzureFileResp, httpErrorStatus r.status = true →
      get_azure_file_content project_repo (Except.ok r) = none) := by
  refine ⟨?_, ?_, ?_⟩
  · intro A e
    refine ⟨?_, ?_, ?_⟩
    · unfold get_recent_commits
      split_ifs <;> rfl
    · unfold get_commit_changes
      split_ifs <;> rfl
    · unfold get_azure_file_content
      split_ifs <;> rfl
  · intro A r h
    constructor
    · unfold get_recent_commits
      split_ifs <;> simp [h]
    · unfold get_commit_changes
      split_ifs <;> simp [h]
  · intro r h
    unfold get_azure_file_content
    split_ifs <;> simp_all

/-- C5 counterexample: `_smart_truncate_content` always keeps the first
`min(20, #lines)` lines, so on a single 11-character line with a budget of
10 the output is the whole line and exceeds the budget. -/
theorem smart_truncate_content_over_budget :
    ¬ ((smart_truncate_content "aaaaaaaaaaa" 10 "").length ≤ 10) := by
  decide

/-- C5 (amended): content already within the budget is returned unchanged;
when the content is longer the output is not guaranteed to stay within
`max_chars` (the first twenty lines are always kept and the inserted
`... (line N) ...` markers are not charged against the budget). -/
theorem smart_truncate_content_small_unchanged (content : String) (max_chars : Int)
    (error_message : String) (h : (content.length : Int) ≤ max_chars) :
    smart_truncate_content content max_chars error_message = content := by
  unfold smart_truncate_content
  rw [if_pos h]

/-- Witness for C5's amended theorem at a concrete input. -/
theorem smart_truncate_content_small_unchanged_witness :
    smart_truncate_content "abc" 5 "boom" = "abc" :=
  smart_truncate_content_small_unchanged "abc" 5 "boom" (by decide)

/-- The fallback selector returns at most `max_files` paths, all of them
paths of input files. -/
theorem smart_file_selection_fallback_spec (all_files : List FileInfo)
    (error_message : String) (max_files : Nat) :
    (smart_file_selection_fallback all_files error_message max_files).length ≤ max_files ∧
    ∀ p ∈ smart_file_selection_fallback all_files error_message max_files,
      p ∈ all_files.map FileInfo.path := by
  simp only [smart_file_selection_fallback]
  constructor
  · rw [List.length_map, List.length_take]
    exact min_le_left _ _
  · intro p hp
    rcases List.mem_map.mp hp with ⟨pair, hpair, rfl⟩
    have h1 := List.mem_of_mem_take hpair
    have h2 : pair ∈ (all_files.filterMap (fun f =>
        if scoreFile error_message f > 0 then some (f.path, scoreFile error_message f)
        else none)) := ((pySort_perm _ _).mem_iff).mp h1
    rcases List.mem_filterMap.mp h2 with ⟨f, hf, hfa⟩
    by_cases hs : scoreFile error_message f > 0
    · rw [if_pos hs] at hfa
      apply List.mem_map.mpr
      refine ⟨f, hf, ?_⟩
      have h3 : (f.path, scoreFile error_message f) = pair := Option.some.inj hfa
      rw [← h3]
    · rw [if_neg hs] at hfa
      cases hfa

/-- C3: for every candidate list, error message and bound, both
`ai_select_relevant_files` (under every possible chat-completion answer)
and `_smart_file_selection_fallback` return at most `max_files` paths, and
every returned path is the path of a file of the input list. -/
theorem file_selection_bounded (aiResponse : Option (List String))
    (all_files : List FileInfo) (error_message : String) (max_files : Nat) :
    ((smart_file_selection_fallback all_files error_message max_files).length
        ≤ max_files ∧
      ∀ p ∈ smart_file_selection_fallback all_files error_message max_files,
        p ∈ all_files.map FileInfo.path) ∧
    ((ai_select_relevant_files aiResponse all_files error_message max_files).length
        ≤ max_files ∧
      ∀ p ∈ ai_select_relevant_files aiResponse all_files error_message max_files,
        p ∈ all_files.map FileInfo.path) := by
  refine ⟨smart_file_selection_fallback_spec _ _ _, ?_⟩
  unfold ai_select_relevant_files
  by_cases h : all_files.isEmpty
  · rw [if_pos h]
    constructor
    · simp
    · intro p hp
      simp at hp
  · rw [if_neg h]
    cases aiResponse with
    | none => exact smart_file_selection_fallback_spec _ _ _
    | some sp =>
      simp only []
      by_cases hv : (sp.filter
          (fun p => (all_files.map FileInfo.path).contains p)).isEmpty
      · rw [hv]
        simp only [Bool.not_true, Bool.false_eq_true, if_false]
        exact smart_file_selection_fallback_spec _ _ _
      · rw [Bool.not_eq_true] at hv
        rw [hv]
        simp only [Bool.not_false, if_true]
        constructor
        · rw [List.length_take]
          exact min_le_left _ _
        · intro p hp
          have h1 := List.mem_of_mem_take hp
          have h2 := List.of_mem_filter h1
          exact List.elem_iff.mp h2

/-- C4: whenever the LLM path fails (raise, non-200 status, unparsable
answer: `aiResponse = none`) or its parsed answer contains no path of the
candidate list, `ai_select_relevant_files` returns exactly the result of
`_smart_file_selection_fallback` on the same arguments. -/
theorem ai_select_fallback_on_failure (all_files : List FileInfo)
    (error_message : String) (max_files : Nat) :
    ai_select_relevant_files none all_files error_message max_files =
      smart_file_selection_fallback all_files error_message max_files ∧
    (∀ selected_paths : List String,
      selected_paths.filter (fun p => (all_files.map FileInfo.path).contains p) = [] →
      ai_select_relevant_files (some selected_paths) all_files error_message max_files =
        smart_file_selection_fallback all_files error_message max_files) := by
  have hempty : all_files.isEmpty = true → ([] : List String) =
      smart_file_selection_fallback all_files error_message max_files := by
    intro h
    rw [List.isEmpty_iff.mp h]
    simp [smart_file_selection_fallback, pySort]
  constructor
  · unfold ai_select_relevant_files
    by_cases h : all_files.isEmpty
    · rw [if_pos h]
      exact hempty h
    · rw [if_neg h]
  · intro sp hsp
    unfold ai_select_relevant_files
    by_cases h : all_files.isEmpty
    · rw [if_pos h]
      exact hempty h
    · rw [if_neg h]
      simp only [hsp, List.isEmpty_nil, Bool.not_true, Bool.false_eq_true, if_false]

end ErrorAnalyzer

namespace JIRACreator

open AIChallenge

/-! ### Claim theorems about `agent/create_tickets.py` -/

/-- C6: when the description carries the headings `User Story`,
`Acceptance Criteria` and `Scenarios` (first occurrences at `i < j < k`,
which is what makes all three stripped slices non-empty) and the other
required fields are non-empty, `create_ticket` posts a body of exactly
three panels holding the stripped slices `[i:j]`, `[j:k]` and `[k:]`; when
any heading is missing or any stripped section is empty, it returns an
error string and never reaches the post. -/
theorem create_ticket_three_sections (summary description issue_type project_key : String) :
    (∀ i j k, pyFind description "User Story" = some i →
      pyFind description "Acceptance Criteria" = some j →
      pyFind description "Scenarios" = some k →
      summary ≠ "" → issue_type ≠ "" → project_key ≠ "" →
      pyStrip (pySlice description i j) ≠ "" →
      pyStrip (pySlice description j k) ≠ "" →
      pyStrip (pySliceFrom description k) ≠ "" →
      create_ticket summary description issue_type project_key =
        Except.ok [⟨"info", pyStrip (pySlice description i j)⟩,
          ⟨"success", pyStrip (pySlice description j k)⟩,
          ⟨"note", pyStrip (pySliceFrom description k)⟩]) ∧
    ((pyFind description "User Story" = none ∨
      pyFind description "Acceptance Criteria" = none ∨
      pyFind description "Scenarios" = none ∨
      (∃ i j, pyFind description "User Story" = some i ∧
        pyFind description "Acceptance Criteria" = some j ∧
        pyStrip (pySlice description i j) = "") ∨
      (∃ j k, pyFind description "Acceptance Criteria" = some j ∧
        pyFind description "Scenarios" = some k ∧
        pyStrip (pySlice description j k) = "") ∨
      (∃ k, pyFind description "Scenarios" = some k ∧
        pyStrip (pySliceFrom description k) = "")) →
      ∃ msg, create_ticket summary description issue_type project_key =
        Except.error msg) := by
  constructor
  · intro i j k h1 h2 h3 hs hi hp hu ha ht
    have hd : description ≠ "" := by
      intro hdesc
      rw [hdesc] at h1
      rw [show pyFind "" "User Story" = none from by decide] at h1
      cases h1
    simp [create_ticket, hs, hi, hp, hd, h1, h2, h3, hu, ha, ht]
  · intro h
    unfold create_ticket
    split_ifs with hc
    · exact ⟨_, rfl⟩
    · rcases h with h | h | h | ⟨i, j, hU, hA, hslice⟩ | ⟨j, k, hA, hS, hslice⟩ |
        ⟨k, hS, hslice⟩
      · rw [h]
        exact ⟨_, rfl⟩
      · cases hU : pyFind description "User Story" with
        | none => exact ⟨_, rfl⟩
        | some i =>
          rw [h]
          exact ⟨_, rfl⟩
      · cases hU : pyFind description "User Story" with
        | none => exact ⟨_, rfl⟩
        | some i =>
          cases hA : pyFind description "Acceptance Criteria" with
          | none => exact ⟨_, rfl⟩
          | some j =>
            rw [h]
            exact ⟨_, rfl⟩
      · cases hS : pyFind description "Scenarios" with
        | none =>
          rw [hU, hA]
          exact ⟨_, rfl⟩
        | some k =>
          rw [hU, hA]
          refine ⟨"\u274c Please ensure the description includes 'User Story', 'Acceptance Criteria', and 'Scenarios' sections.", ?_⟩
          simp [hslice]
      · cases hU : pyFind description "User Story" with
        | none => exact ⟨_, rfl⟩
        | some i =>
          rw [hA, hS]
          refine ⟨"\u274c Please ensure the description includes 'User Story', 'Acceptance Criteria', and 'Scenarios' sections.", ?_⟩
          simp [hslice]
      · cases hU : pyFind description "User Story" with
        | none => exact ⟨_, rfl⟩
        | some i =>
          cases hA : pyFind description "Acceptance Criteria" with
          | none => exact ⟨_, rfl⟩
          | some j =>
            rw [hS]
            refine ⟨"\u274c Please ensure the description includes 'User Story', 'Acceptance Criteria', and 'Scenarios' sections.", ?_⟩
            simp [hslice]

end JIRACreator

namespace ErrorAnalyzer

open AIChallenge

/-! ### The packing loop of `prepare_analysis_context` (C1, C2) -/

theorem packFiles_nil (err : String) (total : Nat) (ctx : String)
    (curLen included : Nat) :
    packFiles err total ctx curLen included [] = ctx := rfl

theorem packFiles_cons (err : String) (total : Nat) (ctx : String)
    (curLen included : Nat) (f : FileInfo) (rest : List FileInfo) :
    packFiles err total ctx curLen included (f :: rest) =
      (if curLen + (fileSection err curLen total included f).length > MAX_CHARS then
        ctx ++ omittedNote total included (f :: rest)
      else
        packFiles err total (ctx ++ fileSection err curLen total included f)
          (curLen + (fileSection err curLen total included f).length)
          (included + 1) rest) := rfl

theorem packedCount_nil (err : String) (total curLen included : Nat) :
    packedCount err total curLen included [] = 0 := rfl

theorem packedCount_cons (err : String) (total curLen included : Nat)
    (f : FileInfo) (rest : List FileInfo) :
    packedCount err total curLen included (f :: rest) =
      (if curLen + (fileSection err curLen total included f).length > MAX_CHARS then 0
      else packedCount err total
        (curLen + (fileSection err curLen total included f).length)
        (included + 1) rest + 1) := rfl

theorem packExact_nil (err : String) (total : Nat) (ctx : String)
    (curLen included k : Nat) :
    packExact err total ctx curLen included k [] = ctx := by
  cases k with
  | zero => rfl
  | succ k2 => rfl

theorem packExact_zero (err : String) (total : Nat) (ctx : String)
    (curLen included : Nat) (f : FileInfo) (rest : List FileInfo) :
    packExact err total ctx curLen included 0 (f :: rest) = ctx := rfl

theorem packExact_succ (err : String) (total : Nat) (ctx : String)
    (curLen included k : Nat) (f : FileInfo) (rest : List FileInfo) :
    packExact err total ctx curLen included (k + 1) (f :: rest) =
      packExact err total (ctx ++ fileSection err curLen total included f)
        (curLen + (fileSection err curLen total included f).length)
        (included + 1) k rest := rfl

theorem packedCount_le :
    ∀ (files : List FileInfo) (err : String) (total curLen included : Nat),
      packedCount err total curLen included files ≤ files.length := by
  intro files
  induction files with
  | nil =>
    intro err total curLen included
    rw [packedCount_nil]
    exact Nat.le_refl 0
  | cons f rest ih =>
    intro err total curLen included
    rw [packedCount_cons]
    by_cases hb : curLen + (fileSection err curLen total included f).length > MAX_CHARS
    · rw [if_pos hb]
      exact Nat.zero_le _
    · rw [if_neg hb]
      rw [List.length_cons]
      exact Nat.succ_le_succ (ih err total _ (included + 1))

/-- The greedy loop packs exactly the first `packedCount` files: the
context it returns is the unconditional packing of that prefix, followed
by the omitted-files note exactly when some file was left out. -/
theorem packFiles_eq_packExact :
    ∀ (files : List FileInfo) (err : String) (total : Nat) (ctx : String)
      (included : Nat),
      packFiles err total ctx ctx.length included files =
        (if packedCount err total ctx.length included files = files.length then
          packExact err total ctx ctx.length included
            (packedCount err total ctx.length included files) files
        else
          packExact err total ctx ctx.length included
            (packedCount err total ctx.length included files) files
            ++ omittedNote total
              (included + packedCount err total ctx.length included files)
              (files.drop (packedCount err total ctx.length included files))) := by
  intro files
  induction files with
  | nil =>
    intro err total ctx included
    rw [packFiles_nil, packedCount_nil]
    rw [if_pos (by rfl)]
    rw [packExact_nil]
  | cons f rest ih =>
    intro err total ctx included
    rw [packFiles_cons, packedCount_cons]
    set s := fileSection err ctx.length total included f with hs
    have hlen : ctx.length + s.length = (ctx ++ s).length :=
      (String.length_append ctx s).symm
    by_cases hb : ctx.length + s.length > MAX_CHARS
    · rw [if_pos hb, if_pos hb]
      have hne : (0 : Nat) ≠ (f :: rest).length := by simp
      rw [if_neg hne, packExact_zero]
      simp
    · rw [if_neg hb, if_neg hb]
      rw [hlen]
      rw [ih err total (ctx ++ s) (included + 1)]
      by_cases hk : packedCount err total (ctx ++ s).length (included + 1) rest =
          rest.length
      · rw [if_pos hk]
        rw [if_pos (show packedCount err total (ctx ++ s).length (included + 1) rest
          + 1 = (f :: rest).length from by rw [hk, List.length_cons])]
        rw [packExact_succ, hlen]
      · rw [if_neg hk]
        rw [if_neg (show ¬ (packedCount err total (ctx ++ s).length (included + 1)
          rest + 1 = (f :: rest).length) from by simpa using hk)]
        rw [packExact_succ, hlen]
        have heq : included + (packedCount err total (ctx ++ s).length
            (included + 1) rest + 1) =
            included + 1 + packedCount err total (ctx ++ s).length
              (included + 1) rest := by omega
        rw [heq, List.drop_succ_cons]

/-- Every packed file's section fitted the budget at its state, and when a
file is left out the first omitted one would have exceeded it. -/
theorem packFiles_fits :
    ∀ (files : List FileInfo) (err : String) (total : Nat) (ctx : String)
      (included : Nat),
      (∀ i, i < packedCount err total ctx.length included files →
        sectionFits err total
          (packExact err total ctx ctx.length included i files).length
          (included + i) (files.getD i ⟨"", "", ""⟩)) ∧
      (packedCount err total ctx.length included files < files.length →
        ¬ sectionFits err total
          (packExact err total ctx ctx.length included
            (packedCount err total ctx.length included files) files).length
          (included + packedCount err total ctx.length included files)
          (files.getD (packedCount err total ctx.length included files)
            ⟨"", "", ""⟩)) := by
  intro files
  induction files with
  | nil =>
    intro err total ctx included
    constructor
    · intro i hi
      rw [packedCount_nil] at hi
      exact absurd hi (Nat.not_lt_zero i)
    · intro hlt
      rw [packedCount_nil] at hlt
      simp at hlt
  | cons f rest ih =>
    intro err total ctx included
    rw [packedCount_cons]
    set s := fileSection err ctx.length total included f with hs
    have hlen : ctx.length + s.length = (ctx ++ s).length :=
      (String.length_append ctx s).symm
    by_cases hb : ctx.length + s.length > MAX_CHARS
    · rw [if_pos hb]
      constructor
      · intro i hi
        exact absurd hi (Nat.not_lt_zero i)
      · intro _
        rw [packExact_zero]
        simp only [List.getD_cons_zero, Nat.add_zero]
        unfold sectionFits
        rw [← hs]
        omega
    · rw [if_neg hb]
      constructor
      · intro i hi
        cases i with
        | zero =>
          rw [packExact_zero]
          simp only [List.getD_cons_zero, Nat.add_zero]
          unfold sectionFits
          rw [← hs]
          omega
        | succ i2 =>
          have hi2 : i2 < packedCount err total (ctx ++ s).length
              (included + 1) rest := by
            rw [← hlen]
            omega
          have hstep := (ih err total (ctx ++ s) (included + 1)).1 i2 hi2
          rw [packExact_succ, hlen, List.getD_cons_succ]
          have heq : included + (i2 + 1) = included + 1 + i2 := by omega
          rw [heq]
          exact hstep
      · intro hlt
        have hlt2 : packedCount err total (ctx ++ s).length (included + 1) rest <
            rest.length := by
          rw [← hlen]
          simp only [List.length_cons] at hlt
          omega
        have hstep := (ih err total (ctx ++ s) (included + 1)).2 hlt2
        rw [hlen, packExact_succ, hlen, List.getD_cons_succ]
        have heq : included + (packedCount err total (ctx ++ s).length
            (included + 1) rest + 1) =
            included + 1 + packedCount err total (ctx ++ s).length
              (included + 1) rest := by omega
        rw [heq]
        exact hstep

/-- When every file fits (no omission) and the header is within the budget,
the whole context stays within the budget. -/
theorem packFiles_within_budget :
    ∀ (files : List FileInfo) (err : String) (total : Nat) (ctx : String)
      (included : Nat),
      ctx.length ≤ MAX_CHARS →
      packedCount err total ctx.length included files = files.length →
      (packFiles err total ctx ctx.length included files).length ≤ MAX_CHARS := by
  intro files
  induction files with
  | nil =>
    intro err total ctx included hle _
    rw [packFiles_nil]
    exact hle
  | cons f rest ih =>
    intro err total ctx included hle hcount
    rw [packFiles_cons]
    rw [packedCount_cons] at hcount
    set s := fileSection err ctx.length total included f with hs
    have hlen : ctx.length + s.length = (ctx ++ s).length :=
      (String.length_append ctx s).symm
    by_cases hb : ctx.length + s.length > MAX_CHARS
    · rw [if_pos hb] at hcount
      simp at hcount
    · rw [if_neg hb] at hcount
      rw [if_neg hb, hlen]
      apply ih err total (ctx ++ s) (included + 1)
      · rw [← hlen]
        omega
      · rw [← hlen]
        simp only [List.length_cons] at hcount
        omega

end ErrorAnalyzer

namespace ErrorAnalyzer

open AIChallenge

/-- C2: `prepare_analysis_context` packs greedily in input order: with
`k = packedCountTop`, the context is exactly the header plus the sections
of the first `k` files (`contextPrefix`), followed by the omitted-files
note listing `files.drop k` precisely when `k < #files`; every packed
section fitted the budget at its state, and when files are omitted the
first omitted file's section would have pushed the running length past
`MAX_CHARS` — so the set of files whose content enters the context is a
prefix of the input list. -/
theorem prepare_analysis_context_greedy_prefix (error_message : String)
    (files : List FileInfo) :
    packedCountTop error_message files ≤ files.length ∧
    prepare_analysis_context error_message files =
      (if packedCountTop error_message files = files.length then
        contextPrefix error_message files (packedCountTop error_message files)
      else
        contextPrefix error_message files (packedCountTop error_message files)
          ++ omittedNote files.length (packedCountTop error_message files)
            (files.drop (packedCountTop error_message files))) ∧
    (∀ i, i < packedCountTop error_message files →
      sectionFits error_message files.length
        (contextPrefix error_message files i).length i
        (files.getD i ⟨"", "", ""⟩)) ∧
    (packedCountTop error_message files < files.length →
      ¬ sectionFits error_message files.length
        (contextPrefix error_message files (packedCountTop error_message files)).length
        (packedCountTop error_message files)
        (files.getD (packedCountTop error_message files) ⟨"", "", ""⟩)) := by
  have hchar := packFiles_eq_packExact files error_message files.length
    (contextHeader error_message) 0
  have hfits := packFiles_fits files error_message files.length
    (contextHeader error_message) 0
  have hle := packedCount_le files error_message files.length
    (contextHeader error_message).length 0
  refine ⟨hle, ?_, ?_, ?_⟩
  · unfold prepare_analysis_context packedCountTop contextPrefix
    simpa only [Nat.zero_add] using hchar
  · intro i hi
    unfold packedCountTop at hi
    have hstep := hfits.1 i hi
    unfold contextPrefix
    simpa only [Nat.zero_add] using hstep
  · intro hlt
    unfold packedCountTop at hlt
    have hstep := hfits.2 hlt
    unfold packedCountTop contextPrefix
    simpa only [Nat.zero_add] using hstep

/-- C1 counterexample: with an empty file list the context is just the
error-message header, so an error message of 400000 characters already
pushes the context to 400038 characters, past `MAX_CHARS = 400000`. -/
theorem prepare_analysis_context_over_budget :
    MAX_CHARS <
      (prepare_analysis_context (String.mk (List.replicate 400000 'a')) []).length := by
  have h : prepare_analysis_context (String.mk (List.replicate 400000 'a')) [] =
      contextHeader (String.mk (List.replicate 400000 'a')) := rfl
  rw [h]
  unfold contextHeader
  have hmk : (String.mk (List.replicate 400000 'a')).length = 400000 := by
    rw [String.length_mk (List.replicate 400000 'a'), List.length_replicate]
  rw [String.length_append, String.length_append, hmk]
  rw [show ("ERROR MESSAGE:\n" : String).length = 15 from rfl]
  rw [show ("\n\nRELEVANT CODE FILES:\n" : String).length = 23 from rfl]
  decide

/-- C1 (amended): when the error-message header itself fits the budget and
no file had to be omitted (`packedCountTop = #files`), the assembled
context has length at most `MAX_CHARS`; without those conditions the bound
fails — an oversized error message alone exceeds it, and the omitted-files
note is appended after the budget check. -/
theorem prepare_analysis_context_budget_amended (error_message : String)
    (files : List FileInfo)
    (h1 : (contextHeader error_message).length ≤ MAX_CHARS)
    (h2 : packedCountTop error_message files = files.length) :
    (prepare_analysis_context error_message files).length ≤ MAX_CHARS := by
  unfold prepare_analysis_context
  unfold packedCountTop at h2
  exact packFiles_within_budget files error_message files.length
    (contextHeader error_message) 0 h1 h2

/-- Witness for C1's amended theorem at a concrete input. -/
theorem prepare_analysis_context_budget_amended_witness :
    (prepare_analysis_context "" []).length ≤ MAX_CHARS :=
  prepare_analysis_context_budget_amended "" [] (by decide) (by decide)

end ErrorAnalyzer

/-! ### Concrete evaluations of the embedded operations (non-vacuity checks) -/

/-- The ticket formatter on a well-formed three-section description
produces exactly the three stripped panels. -/
theorem evalcheck_create_ticket :
    JIRACreator.create_ticket "s" "User Story A Acceptance Criteria B Scenarios C"
      "Task" "KEY" =
      Except.ok [⟨"info", "User Story A"⟩, ⟨"success", "Acceptance Criteria B"⟩,
        ⟨"note", "Scenarios C"⟩] := by
  rfl

/-- Pagination stops at the first response without a next link: the third
response of the chain is never requested. -/
theorem evalcheck_confluence :
    SyncConfluence.get_confluence_pages
      ([⟨[1, 2], some "n"⟩, ⟨[3], none⟩, ⟨[4], none⟩] :
        List (SyncConfluence.ConfResponse Nat)) = [1, 2, 3] := by
  decide

/-- A valid Azure DevOps URL with a non-empty error message is accepted. -/
theorem evalcheck_validate :
    ErrorAnalysisFeature.validate_inputs "boom"
      "https://dev.azure.com/org/proj/_git/repo" = none := by
  decide

/-- A small file fits the budget, so the packing loop packs it whole. -/
theorem evalcheck_packed_count :
    ErrorAnalyzer.packedCountTop "boom" [⟨"p.cs", "p.cs", "hello"⟩] = 1 := by
  decide

/-- The keyword fallback selects the file whose name matches the error. -/
theorem evalcheck_fallback :
    ErrorAnalyzer.smart_file_selection_fallback
      [⟨"src/UserService.cs", "UserService.cs", "x"⟩, ⟨"a/b.txt", "b.txt", "y"⟩]
      "NullReferenceException at UserService.GetUserById" 5 =
      ["src/UserService.cs"] := by
  decide
